import Mathlib

/-! Verification development for pg-magicplan, a PostgreSQL planner hook that
tries to improve the planning of `EXISTS (SELECT ...)` sublinks by injecting
an `OFFSET 0` clause into offset-free existence subqueries, replanning after
each injection, and finally choosing between the pristine plan and the best
rewritten plan by a configurable cost-ratio threshold.

The embedding below follows the mutator-based implementation
(`src/unnamed/part_002`): the context struct `magicplan_mutator_context`,
the helpers `real_plan` and `find_best_query`, the tree-walking callback
`magicplan_mutator` (together with the parts of PostgreSQL's
`query_tree_mutator` / `expression_tree_mutator` that it exercises), and the
driver `magicplan_planner` with the GUC settings `magicplan.enabled` and
`magicplan.threshold`.

Modelling conventions:
* Query / expression trees are values of the inductive type `Expr`.  A
  PostgreSQL `Query` node is the constructor `Expr.query quals limitOffset`,
  keeping exactly the two fields the extension reads or writes (the
  top-level filter reached through `jointree->quals`, and `limitOffset`);
  all other expression nodes that the walk merely passes through are
  `leaf` / `constInt` / `boolExpr` / `sublink` nodes.
* `Cost` (a C `double`) is modelled as `ℚ`; the driver's cost ratio is
  rational division.
* The external planner (`prev_planner` / `standard_planner`) is a parameter
  `oracle : Expr → PlannedStmt`, deterministic per query tree.
* The C code mutates the shared tree in place (`QTW_DONT_COPY_QUERY`, and
  direct stores such as `newquery->limitOffset = ...`).  In this value-level
  embedding each recursive call carries a rebuilding function
  `reb : Expr → Expr` that maps the value of the node currently being
  visited to the value of the whole root tree; writing through `reb` is the
  value-level image of the in-place store, and `reb` applied to the current
  node is the value currently seen through any alias of the root (such as
  `context->best_query`, which aliases the root `parse` object for the whole
  traversal).
* `copyObject` produces a structurally identical deep copy; on values a
  copy is the value itself, so it is the identity function here.
* The instrumentation `trace : List Event` records, in order, each call of
  the external planner (`Event.planned`, appended by `real_plan`) and each
  `OFFSET 0` injection (`Event.injected`, appended at the store
  `newquery->limitOffset = makeConst(...)`).  The C code has no such field;
  it only makes the order of the side effects observable.
-/

namespace Magicplan

/-- Models `BoolExpr->boolop`: AND_EXPR / OR_EXPR / NOT_EXPR. -/
inductive BoolOpKind where
  | andExpr
  | orExpr
  | notExpr
deriving DecidableEq

/-- Models `SubLink->subLinkType`, collapsed to the only distinction the code
makes: `EXISTS_SUBLINK` versus everything else. -/
inductive SubLinkKind where
  | existsSublink
  | otherSublink
deriving DecidableEq

/-- Query / expression trees.  `query quals limitOffset` is a `Query` node
with its top-level filter (`jointree->quals`) and its `limitOffset` clause;
`sublink` is a `SubLink` with its `subselect`; `boolExpr` is a `BoolExpr`
with its argument list; `constInt` is an integer `Const` (the injected
`OFFSET 0` is `constInt 0`); `leaf` stands for any other expression node
that the extension treats as opaque. -/
inductive Expr where
  | leaf (tag : Nat)
  | constInt (v : Int)
  | boolExpr (op : BoolOpKind) (args : List Expr)
  | sublink (kind : SubLinkKind) (subselect : Expr)
  | query (quals : Option Expr) (limitOffset : Option Expr)

/-- Models `Plan`, reduced to the only field the extension reads. -/
structure Plan where
  total_cost : ℚ
deriving DecidableEq

/-- Models `PlannedStmt`, reduced to the only field the extension reads. -/
structure PlannedStmt where
  planTree : Plan
deriving DecidableEq

/-- Instrumentation: the observable side effects of one search, in order.
`planned` is one invocation of the external planner (`real_plan`);
`injected` is one `OFFSET 0` store into an existence subquery. -/
inductive Event where
  | injected
  | planned
deriving DecidableEq

/-- Models `magicplan_mutator_context` (part_002 lines 28-42).  `queryString`,
`cursorOptions` and `boundParams` are opaque pass-through arguments of the
external planner and are folded into the `oracle` parameter.  `trace` is
instrumentation (see the module comment). -/
structure MutatorContext where
  base_query : Expr
  best_query : Expr
  base_plan : Option PlannedStmt
  best_plan : Option PlannedStmt
  current_query : Expr
  trace : List Event

/-- Models `copyObject`: a deep structural copy.  A copy of a value is the value
itself, so on this value-level embedding it is the identity; what matters
is that the copy is structurally equal to and independent of the source. -/
def copyObject (e : Expr) : Expr := e

/-- Models `real_plan` (part_002 lines 99-106): invoke the previous planner hook or
`standard_planner` on `context->current_query`.  Appends a `planned` event. -/
def real_plan (oracle : Expr → PlannedStmt) (context : MutatorContext) :
    PlannedStmt × MutatorContext :=
  (oracle context.current_query,
   { context with trace := context.trace ++ [Event.planned] })

/-- Models `find_best_query` (part_002 lines 112-128): plan a deep copy of the
candidate (saving and restoring `context->current_query` around the planner
call); if there is no best plan yet, or the candidate's total cost is less
than or equal to the best plan's total cost, record the candidate and its
plan and return true, otherwise leave the context unchanged and return
false. -/
def find_best_query (oracle : Expr → PlannedStmt) (context : MutatorContext)
    (candidate : Expr) : Bool × MutatorContext :=
  let previous_context_query := context.current_query
  let context1 := { context with current_query := copyObject candidate }
  let (candidate_plan, context2) := real_plan oracle context1
  let context3 := { context2 with current_query := previous_context_query }
  match context3.best_plan with
  | none =>
      (true, { context3 with best_plan := some candidate_plan, best_query := candidate })
  | some bp =>
      if candidate_plan.planTree.total_cost ≤ bp.planTree.total_cost then
        (true, { context3 with best_plan := some candidate_plan, best_query := candidate })
      else
        (false, context3)

/-- The `OFFSET 0` constant built by `makeConst(INT8OID, ..., Int64GetDatum(0),
false, true)` (part_002 lines 168-174). -/
def zeroOffsetConst : Expr := Expr.constInt 0

mutual

/-- Models `magicplan_mutator` (part_002 lines 138-184), together with the parts of
`query_tree_mutator` / `expression_tree_mutator` it exercises.

* A `Query` node: `query_tree_mutator` walks its sub-nodes (here: the
  filter reached through `jointree->quals`, then `limitOffset`) and rebuilds
  the node.
* A `SubLink` of type `EXISTS_SUBLINK` whose `subselect` is a `Query`:
  first recurse into the subquery (`query_tree_mutator(...,
  QTW_DONT_COPY_QUERY)`, lines 161-163); if the rewritten subquery has no
  `limitOffset`, store the `OFFSET 0` constant into it (`injected` event),
  set `sublink->subselect` and immediately call
  `find_best_query(context, context->best_query)` (lines 166-178).
  `context->best_query` aliases the root `parse` object throughout the
  traversal, so the candidate it denotes is the current value of the whole
  working tree: `reb` applied to the just-mutated sublink.
* Any other `SubLink` is returned without recursing into it (line 180 is
  reached without any recursive call in that case).
* A `BoolExpr`: `expression_tree_mutator` rebuilds it, mutating the
  argument list left to right.
* `Const` and other leaves are simply copied. -/
def magicplan_mutator (oracle : Expr → PlannedStmt) (node : Expr)
    (reb : Expr → Expr) (context : MutatorContext) : Expr × MutatorContext :=
  match node with
  | .query quals lo =>
      let rq := mutateOpt oracle quals (fun oe => reb (Expr.query oe lo)) context
      let rl := mutateOpt oracle lo (fun oe => reb (Expr.query rq.1 oe)) rq.2
      (Expr.query rq.1 rl.1, rl.2)
  | .sublink kind sub =>
      match kind, sub with
      | .existsSublink, .query q lo =>
          let rq := mutateOpt oracle q
            (fun oe => reb (Expr.sublink SubLinkKind.existsSublink (Expr.query oe lo))) context
          let rl := mutateOpt oracle lo
            (fun oe => reb (Expr.sublink SubLinkKind.existsSublink (Expr.query rq.1 oe))) rq.2
          match rl.1 with
          | none =>
              let injectedQuery := Expr.query rq.1 (some zeroOffsetConst)
              let context2 := { rl.2 with trace := rl.2.trace ++ [Event.injected] }
              let fb := find_best_query oracle context2
                (reb (Expr.sublink SubLinkKind.existsSublink injectedQuery))
              (Expr.sublink SubLinkKind.existsSublink injectedQuery, fb.2)
          | some lo' =>
              (Expr.sublink SubLinkKind.existsSublink (Expr.query rq.1 (some lo')), rl.2)
      | _, _ => (Expr.sublink kind sub, context)
  | .boolExpr op args =>
      let r := mutateList oracle args (fun l => reb (Expr.boolExpr op l)) context
      (Expr.boolExpr op r.1, r.2)
  | .leaf t => (Expr.leaf t, context)
  | .constInt v => (Expr.constInt v, context)

/-- Walk an optional sub-node; the mutator callback maps NULL to NULL
(part_002 lines 141-142). -/
def mutateOpt (oracle : Expr → PlannedStmt) (oe : Option Expr)
    (reb : Option Expr → Expr) (context : MutatorContext) :
    Option Expr × MutatorContext :=
  match oe with
  | none => (none, context)
  | some e =>
      let r := magicplan_mutator oracle e (fun x => reb (some x)) context
      (some r.1, r.2)

/-- Walk an argument list left to right, as `expression_tree_mutator` does
for a `BoolExpr`'s argument list.  While the head is being visited the
aliased root still shows the original tail; once the head is done the root
shows its rewritten value. -/
def mutateList (oracle : Expr → PlannedStmt) (l : List Expr)
    (reb : List Expr → Expr) (context : MutatorContext) :
    List Expr × MutatorContext :=
  match l with
  | [] => ([], context)
  | e :: rest =>
      let r1 := magicplan_mutator oracle e (fun x => reb (x :: rest)) context
      let r2 := mutateList oracle rest (fun xs => reb (r1.1 :: xs)) r1.2
      (r1.1 :: r2.1, r2.2)

end

/-- Observable outcome of one `magicplan_planner` invocation.
`callerTree` is the value of the caller's `parse` object after the call
returns: the mutator runs with `QTW_DONT_COPY_QUERY`, so when it runs at
all, the caller's object ends up holding the mutated tree.  `keptPristine`
records which of the two `elog` branches was taken (`true` for "kept the
pristine plan", also for the two early returns of the base plan);
`dividedRatio` records whether the cost-ratio division of line 227 was
evaluated.  `trace` is the instrumentation trace of the whole call. -/
structure PlannerResult where
  result : PlannedStmt
  base_plan : PlannedStmt
  best_plan : Option PlannedStmt
  callerTree : Expr
  keptPristine : Bool
  dividedRatio : Bool
  trace : List Event

/-- Models `magicplan_planner` (part_002 lines 186-237): take a deep copy `backup`
of `parse`; initialize the mutator context (`best_query = parse`,
`best_plan = NULL`); plan the original query once from `backup`; if
`magicplan.enabled` is false return that base plan; otherwise walk `parse`
in place with the mutator (which evaluates candidates as it injects); then,
if no candidate was ever evaluated return the base plan, else compute
`base_cost / best_cost` and return the base plan when the ratio is at most
`magicplan.threshold` and the best plan otherwise. -/
def magicplan_planner (oracle : Expr → PlannedStmt) (magicplan_enabled : Bool)
    (magicplan_threshold : ℚ) (parse : Expr) : PlannerResult :=
  let backup := copyObject parse
  let ctx0 : MutatorContext :=
    { current_query := parse, base_query := backup, best_query := parse,
      base_plan := none, best_plan := none, trace := [] }
  let ctx1 := { ctx0 with current_query := backup }
  let rp := real_plan oracle ctx1
  let base_plan := rp.1
  let ctx2 := { rp.2 with base_plan := some base_plan }
  if !magicplan_enabled then
    { result := base_plan, base_plan := base_plan, best_plan := none,
      callerTree := parse, keptPristine := true, dividedRatio := false,
      trace := ctx2.trace }
  else
    let mr := magicplan_mutator oracle parse id ctx2
    let ctx3 := { mr.2 with current_query := backup }
    match ctx3.best_plan with
    | none =>
        { result := base_plan, base_plan := base_plan, best_plan := none,
          callerTree := mr.1, keptPristine := true, dividedRatio := false,
          trace := ctx3.trace }
    | some bp =>
        let base_cost := base_plan.planTree.total_cost
        let best_cost := bp.planTree.total_cost
        if base_cost / best_cost ≤ magicplan_threshold then
          { result := base_plan, base_plan := base_plan, best_plan := some bp,
            callerTree := mr.1, keptPristine := true, dividedRatio := true,
            trace := ctx3.trace }
        else
          { result := bp, base_plan := base_plan, best_plan := some bp,
            callerTree := mr.1, keptPristine := false, dividedRatio := true,
            trace := ctx3.trace }

mutual

/-- Number of `Query` nodes in a tree whose `limitOffset` is set.  Used as
an observation function on trees (an `OFFSET 0` injection raises it). -/
def markedQueries : Expr → Nat
  | .leaf _ => 0
  | .constInt _ => 0
  | .boolExpr _ args => markedList args
  | .sublink _ sub => markedQueries sub
  | .query quals lo =>
      (match lo with | none => 0 | some _ => 1) +
      (match quals with | none => 0 | some e => markedQueries e)

/-- Sum of `markedQueries` over a list of trees. -/
def markedList : List Expr → Nat
  | [] => 0
  | e :: rest => markedQueries e + markedList rest

end

/-- The trace property "every injection is immediately followed by a planner
call": whenever position `i` holds an `injected` event, position `i + 1`
holds a `planned` event. -/
def evalFollowsInjection (t : List Event) : Prop :=
  ∀ i : Nat, t[i]? = some Event.injected → t[i + 1]? = some Event.planned

/-- Traces that arise from the search: a sequence of blocks, each block
either a lone planner call or an injection immediately followed by the
planner call that `find_best_query` makes for it. -/
inductive GoodTrace : List Event → Prop where
  | nil : GoodTrace []
  | plan (t : List Event) : GoodTrace t → GoodTrace (t ++ [Event.planned])
  | inject (t : List Event) : GoodTrace t →
      GoodTrace (t ++ [Event.injected, Event.planned])

/-- State of the mutator context at the point where `magicplan_planner`
starts the tree walk (part_002 line 214): the context has been initialized,
the base plan has been computed from the backup copy (one `planned` event),
and no candidate has been evaluated yet. -/
def startContext (oracle : Expr → PlannedStmt) (parse : Expr) : MutatorContext :=
  { base_query := parse, best_query := parse, base_plan := some (oracle parse),
    best_plan := none, current_query := parse, trace := [Event.planned] }

/-- Result of a sequence of successive `find_best_query` calls, used to
state trajectory properties of the evaluator across one search. -/
def evalCandidates (oracle : Expr → PlannedStmt) (context : MutatorContext)
    (candidates : List Expr) : MutatorContext :=
  candidates.foldl (fun c q => (find_best_query oracle c q).2) context

/-- Concrete example: a query whose top-level filter is a single bare
existence check (not an AND conjunction), over an offset-free subquery:
`SELECT ... WHERE EXISTS (SELECT ... WHERE p)`. -/
def qExists : Expr :=
  Expr.query (some (Expr.sublink SubLinkKind.existsSublink
    (Expr.query (some (Expr.leaf 1)) none))) none

/-- Concrete example: nested existence checks
`SELECT ... WHERE EXISTS (SELECT ... WHERE EXISTS (SELECT ... WHERE p))`,
both subqueries offset-free. -/
def qNested : Expr :=
  Expr.query (some (Expr.sublink SubLinkKind.existsSublink
    (Expr.query (some (Expr.sublink SubLinkKind.existsSublink
      (Expr.query (some (Expr.leaf 2)) none))) none))) none

/-- Concrete example oracle: trees containing at least one `OFFSET`-marked
query cost 20, unmarked trees cost 12 (the rewritten plan is worse). -/
def oracleWorse : Expr → PlannedStmt :=
  fun q => ⟨⟨if 0 < markedQueries q then 20 else 12⟩⟩

/-- Concrete example oracle: trees containing at least one `OFFSET`-marked
query cost 5, unmarked trees cost 0 (a degenerate zero base cost). -/
def oracleZeroBase : Expr → PlannedStmt :=
  fun q => ⟨⟨if 0 < markedQueries q then 5 else 0⟩⟩

/-- Concrete example oracle: every tree costs 5. -/
def oracleFlat : Expr → PlannedStmt :=
  fun _ => ⟨⟨5⟩⟩

/-! Basic facts about the evaluator `find_best_query`. -/

theorem fbq_trace (oracle : Expr → PlannedStmt) (context : MutatorContext)
    (c : Expr) :
    ((find_best_query oracle context c).2).trace = context.trace ++ [Event.planned] := by
  unfold find_best_query real_plan
  dsimp only
  split
  · rfl
  · split <;> rfl

theorem fbq_current_query (oracle : Expr → PlannedStmt) (context : MutatorContext)
    (c : Expr) :
    ((find_best_query oracle context c).2).current_query = context.current_query := by
  unfold find_best_query real_plan
  dsimp only
  split
  · rfl
  · split <;> rfl

theorem fbq_base_plan (oracle : Expr → PlannedStmt) (context : MutatorContext)
    (c : Expr) :
    ((find_best_query oracle context c).2).base_plan = context.base_plan := by
  unfold find_best_query real_plan
  dsimp only
  split
  · rfl
  · split <;> rfl

theorem fbq_base_query (oracle : Expr → PlannedStmt) (context : MutatorContext)
    (c : Expr) :
    ((find_best_query oracle context c).2).base_query = context.base_query := by
  unfold find_best_query real_plan
  dsimp only
  split
  · rfl
  · split <;> rfl

theorem fbq_best_plan_cases (oracle : Expr → PlannedStmt) (context : MutatorContext)
    (c : Expr) :
    ((find_best_query oracle context c).2).best_plan = context.best_plan ∨
      ((find_best_query oracle context c).2).best_plan = some (oracle c) := by
  unfold find_best_query real_plan
  dsimp only
  split
  · exact Or.inr rfl
  · split
    · exact Or.inr rfl
    · exact Or.inl rfl

theorem fbq_goodTrace (oracle : Expr → PlannedStmt) (context : MutatorContext)
    (c : Expr) (h : GoodTrace context.trace) :
    GoodTrace ((find_best_query oracle context c).2).trace := by
  rw [fbq_trace]
  exact GoodTrace.plan _ h

/-! Structural invariants of the tree walk, by functional induction over the
mutual recursion of `magicplan_mutator`. -/

theorem mutator_trace_ext (oracle : Expr → PlannedStmt) :
    ∀ (node : Expr) (reb : Expr → Expr) (context : MutatorContext),
      ∃ ext, ((magicplan_mutator oracle node reb context).2).trace =
        context.trace ++ ext := by
  refine magicplan_mutator.induct oracle
    (fun node reb context => ∃ ext,
      ((magicplan_mutator oracle node reb context).2).trace = context.trace ++ ext)
    (fun l reb context => ∃ ext,
      ((mutateList oracle l reb context).2).trace = context.trace ++ ext)
    (fun oe reb context => ∃ ext,
      ((mutateOpt oracle oe reb context).2).trace = context.trace ++ ext)
    ?_ ?_ ?_ ?_ ?_ ?_ ?_ ?_ ?_ ?_ ?_
  · intro reb context quals lo rq ih1 ih2
    obtain ⟨e1, h1⟩ := ih1
    obtain ⟨e2, h2⟩ := ih2
    refine ⟨e1 ++ e2, ?_⟩
    simp only [magicplan_mutator]
    rw [h2, h1, List.append_assoc]
  · intro reb context q lo rq rl hnone ih1 ih2
    obtain ⟨e1, h1⟩ := ih1
    obtain ⟨e2, h2⟩ := ih2
    refine ⟨e1 ++ e2 ++ [Event.injected, Event.planned], ?_⟩
    simp only [magicplan_mutator]
    rw [hnone]
    rw [fbq_trace]
    dsimp only
    rw [h2, h1]
    simp [List.append_assoc]
  · intro reb context q lo rq rl lo' hsome ih1 ih2
    obtain ⟨e1, h1⟩ := ih1
    obtain ⟨e2, h2⟩ := ih2
    refine ⟨e1 ++ e2, ?_⟩
    simp only [magicplan_mutator]
    rw [hsome]
    dsimp only
    rw [h2, h1, List.append_assoc]
  · intro reb context kind sub hother
    refine ⟨[], ?_⟩
    rcases kind with _ | _ <;> rcases sub with t | v | ⟨op, args⟩ | ⟨k, s⟩ | ⟨quals, lo⟩ <;>
      first
        | exact absurd rfl (hother quals lo rfl)
        | simp [magicplan_mutator]
  · intro reb context op args ih
    obtain ⟨e, h⟩ := ih
    refine ⟨e, ?_⟩
    simp only [magicplan_mutator]
    exact h
  · intro reb context t
    exact ⟨[], by simp [magicplan_mutator]⟩
  · intro reb context v
    exact ⟨[], by simp [magicplan_mutator]⟩
  · intro reb context
    exact ⟨[], by simp [mutateList]⟩
  · intro reb context e rest r1 ih1 ih2
    obtain ⟨e1, h1⟩ := ih1
    obtain ⟨e2, h2⟩ := ih2
    refine ⟨e1 ++ e2, ?_⟩
    simp only [mutateList]
    rw [h2, h1, List.append_assoc]
  · intro reb context
    exact ⟨[], by simp [mutateOpt]⟩
  · intro reb context e ih
    obtain ⟨e1, h1⟩ := ih
    refine ⟨e1, ?_⟩
    simp only [mutateOpt]
    exact h1

theorem mutateOpt_trace_ext (oracle : Expr → PlannedStmt) (oe : Option Expr)
    (reb : Option Expr → Expr) (context : MutatorContext) :
    ∃ ext, ((mutateOpt oracle oe reb context).2).trace = context.trace ++ ext := by
  cases oe with
  | none => exact ⟨[], by simp [mutateOpt]⟩
  | some e =>
      obtain ⟨ext, h⟩ := mutator_trace_ext oracle e (fun x => reb (some x)) context
      exact ⟨ext, by simp only [mutateOpt]; exact h⟩

theorem mutateList_trace_ext (oracle : Expr → PlannedStmt) :
    ∀ (l : List Expr) (reb : List Expr → Expr) (context : MutatorContext),
      ∃ ext, ((mutateList oracle l reb context).2).trace = context.trace ++ ext := by
  intro l
  induction l with
  | nil => exact fun reb context => ⟨[], by simp [mutateList]⟩
  | cons e rest ih =>
      intro reb context
      obtain ⟨e1, h1⟩ := mutator_trace_ext oracle e (fun x => reb (x :: rest)) context
      obtain ⟨e2, h2⟩ :=
        ih (fun xs => reb ((magicplan_mutator oracle e (fun x => reb (x :: rest)) context).1 :: xs))
          (magicplan_mutator oracle e (fun x => reb (x :: rest)) context).2
      refine ⟨e1 ++ e2, ?_⟩
      simp only [mutateList]
      rw [h2, h1, List.append_assoc]

theorem count_le_of_trace_ext {a b : List Event} (ev : Event)
    (h : ∃ ext, b = a ++ ext) : a.count ev ≤ b.count ev := by
  obtain ⟨e, rfl⟩ := h
  simp [List.count_append]

theorem mutateOpt_injCount_le (oracle : Expr → PlannedStmt) (oe : Option Expr)
    (reb : Option Expr → Expr) (context : MutatorContext) :
    context.trace.count Event.injected ≤
      ((mutateOpt oracle oe reb context).2).trace.count Event.injected :=
  count_le_of_trace_ext _ (mutateOpt_trace_ext oracle oe reb context)

theorem mutator_injCount_le (oracle : Expr → PlannedStmt) (node : Expr)
    (reb : Expr → Expr) (context : MutatorContext) :
    context.trace.count Event.injected ≤
      ((magicplan_mutator oracle node reb context).2).trace.count Event.injected :=
  count_le_of_trace_ext _ (mutator_trace_ext oracle node reb context)

theorem mutator_id_of_no_injection (oracle : Expr → PlannedStmt) :
    ∀ (node : Expr) (reb : Expr → Expr) (context : MutatorContext),
      ((magicplan_mutator oracle node reb context).2).trace.count Event.injected =
        context.trace.count Event.injected →
      (magicplan_mutator oracle node reb context).1 = node := by
  refine magicplan_mutator.induct oracle
    (fun node reb context =>
      ((magicplan_mutator oracle node reb context).2).trace.count Event.injected =
        context.trace.count Event.injected →
      (magicplan_mutator oracle node reb context).1 = node)
    (fun l reb context =>
      ((mutateList oracle l reb context).2).trace.count Event.injected =
        context.trace.count Event.injected →
      (mutateList oracle l reb context).1 = l)
    (fun oe reb context =>
      ((mutateOpt oracle oe reb context).2).trace.count Event.injected =
        context.trace.count Event.injected →
      (mutateOpt oracle oe reb context).1 = oe) ?_ ?_ ?_ ?_ ?_ ?_ ?_ ?_ ?_ ?_ ?_
  · intro reb context quals lo
    dsimp only
    intro ih1 ih2 h
    simp only [magicplan_mutator] at h ⊢
    have h1 := mutateOpt_injCount_le oracle quals
      (fun oe => reb (Expr.query oe lo)) context
    have h2 := mutateOpt_injCount_le oracle lo
      (fun oe => reb (Expr.query
        (mutateOpt oracle quals (fun oe => reb (Expr.query oe lo)) context).1 oe))
      (mutateOpt oracle quals (fun oe => reb (Expr.query oe lo)) context).2
    rw [ih2 (by omega), ih1 (by omega)]
  · intro reb context q lo
    dsimp only
    intro hnone ih1 ih2 h
    exfalso
    simp only [magicplan_mutator] at h
    rw [hnone] at h
    rw [fbq_trace] at h
    dsimp only at h
    have h1 := mutateOpt_injCount_le oracle q
      (fun oe => reb (Expr.sublink SubLinkKind.existsSublink (Expr.query oe lo))) context
    have h2 := mutateOpt_injCount_le oracle lo
      (fun oe => reb (Expr.sublink SubLinkKind.existsSublink (Expr.query
        (mutateOpt oracle q
          (fun oe => reb (Expr.sublink SubLinkKind.existsSublink (Expr.query oe lo)))
          context).1 oe)))
      (mutateOpt oracle q
        (fun oe => reb (Expr.sublink SubLinkKind.existsSublink (Expr.query oe lo))) context).2
    simp [List.count_append] at h
    omega
  · intro reb context q lo
    dsimp only
    intro lo' hsome ih1 ih2 h
    simp only [magicplan_mutator] at h ⊢
    rw [hsome] at h ⊢
    dsimp only at h ⊢
    have h1 := mutateOpt_injCount_le oracle q
      (fun oe => reb (Expr.sublink SubLinkKind.existsSublink (Expr.query oe lo))) context
    have h2 := mutateOpt_injCount_le oracle lo
      (fun oe => reb (Expr.sublink SubLinkKind.existsSublink (Expr.query
        (mutateOpt oracle q
          (fun oe => reb (Expr.sublink SubLinkKind.existsSublink (Expr.query oe lo)))
          context).1 oe)))
      (mutateOpt oracle q
        (fun oe => reb (Expr.sublink SubLinkKind.existsSublink (Expr.query oe lo))) context).2
    have e1 := ih1 (by omega)
    have e2 := ih2 (by omega)
    rw [e1, hsome.symm.trans e2]
  · intro reb context kind sub hother h
    rcases kind with _ | _ <;> rcases sub with t | v | ⟨op, args⟩ | ⟨k, s⟩ | ⟨quals, lo⟩ <;>
      first
        | exact absurd rfl (hother quals lo rfl)
        | simp [magicplan_mutator]
  · intro reb context op args ih h
    simp only [magicplan_mutator] at h ⊢
    rw [ih h]
  · intro reb context t h
    simp [magicplan_mutator]
  · intro reb context v h
    simp [magicplan_mutator]
  · intro reb context h
    simp [mutateList]
  · intro reb context e rest
    dsimp only
    intro ih1 ih2 h
    simp only [mutateList] at h ⊢
    have h1 := mutator_injCount_le oracle e (fun x => reb (x :: rest)) context
    have h2 := count_le_of_trace_ext Event.injected
      (mutateList_trace_ext oracle rest
        (fun xs => reb ((magicplan_mutator oracle e (fun x => reb (x :: rest)) context).1 :: xs))
        (magicplan_mutator oracle e (fun x => reb (x :: rest)) context).2)
    rw [ih2 (by omega), ih1 (by omega)]
  · intro reb context h
    simp [mutateOpt]
  · intro reb context e ih h
    simp only [mutateOpt] at h ⊢
    rw [ih h]

theorem mutator_goodTrace (oracle : Expr → PlannedStmt) :
    ∀ (node : Expr) (reb : Expr → Expr) (context : MutatorContext),
      GoodTrace context.trace →
      GoodTrace ((magicplan_mutator oracle node reb context).2).trace := by
  refine magicplan_mutator.induct oracle
    (fun node reb context => GoodTrace context.trace →
      GoodTrace ((magicplan_mutator oracle node reb context).2).trace)
    (fun l reb context => GoodTrace context.trace →
      GoodTrace ((mutateList oracle l reb context).2).trace)
    (fun oe reb context => GoodTrace context.trace →
      GoodTrace ((mutateOpt oracle oe reb context).2).trace)
    ?_ ?_ ?_ ?_ ?_ ?_ ?_ ?_ ?_ ?_ ?_
  · intro reb context quals lo
    dsimp only
    intro ih1 ih2 hg
    simp only [magicplan_mutator]
    exact ih2 (ih1 hg)
  · intro reb context q lo
    dsimp only
    intro hnone ih1 ih2 hg
    simp only [magicplan_mutator]
    rw [hnone]
    dsimp only
    rw [fbq_trace]
    dsimp only
    have : GoodTrace ((mutateOpt oracle lo
        (fun oe => reb (Expr.sublink SubLinkKind.existsSublink (Expr.query
          (mutateOpt oracle q
            (fun oe => reb (Expr.sublink SubLinkKind.existsSublink (Expr.query oe lo)))
            context).1 oe)))
        (mutateOpt oracle q
          (fun oe => reb (Expr.sublink SubLinkKind.existsSublink (Expr.query oe lo)))
          context).2).2).trace := ih2 (ih1 hg)
    have h2 := GoodTrace.inject _ this
    simpa [List.append_assoc] using h2
  · intro reb context q lo
    dsimp only
    intro lo' hsome ih1 ih2 hg
    simp only [magicplan_mutator]
    rw [hsome]
    dsimp only
    exact ih2 (ih1 hg)
  · intro reb context kind sub hother hg
    rcases kind with _ | _ <;> rcases sub with t | v | ⟨op, args⟩ | ⟨k, s⟩ | ⟨quals, lo⟩ <;>
      first
        | exact absurd rfl (hother quals lo rfl)
        | simpa [magicplan_mutator] using hg
  · intro reb context op args ih hg
    simp only [magicplan_mutator]
    exact ih hg
  · intro reb context t hg
    simpa [magicplan_mutator] using hg
  · intro reb context v hg
    simpa [magicplan_mutator] using hg
  · intro reb context hg
    simpa [mutateList] using hg
  · intro reb context e rest
    dsimp only
    intro ih1 ih2 hg
    simp only [mutateList]
    exact ih2 (ih1 hg)
  · intro reb context hg
    simpa [mutateOpt] using hg
  · intro reb context e ih hg
    simp only [mutateOpt]
    exact ih hg

theorem fbq_best_from_oracle (oracle : Expr → PlannedStmt) (context : MutatorContext)
    (c : Expr)
    (h : ∀ bp, context.best_plan = some bp → ∃ qq, bp = oracle qq) :
    ∀ bp, ((find_best_query oracle context c).2).best_plan = some bp →
      ∃ qq, bp = oracle qq := by
  intro bp hbp
  rcases fbq_best_plan_cases oracle context c with hc | hc
  · rw [hc] at hbp
    exact h bp hbp
  · rw [hc] at hbp
    exact ⟨c, (Option.some_inj.mp hbp).symm⟩

theorem mutator_best_from_oracle (oracle : Expr → PlannedStmt) :
    ∀ (node : Expr) (reb : Expr → Expr) (context : MutatorContext),
      (∀ bp, context.best_plan = some bp → ∃ qq, bp = oracle qq) →
      ∀ bp, ((magicplan_mutator oracle node reb context).2).best_plan = some bp →
        ∃ qq, bp = oracle qq := by
  refine magicplan_mutator.induct oracle
    (fun node reb context => (∀ bp, context.best_plan = some bp → ∃ qq, bp = oracle qq) →
      ∀ bp, ((magicplan_mutator oracle node reb context).2).best_plan = some bp →
        ∃ qq, bp = oracle qq)
    (fun l reb context => (∀ bp, context.best_plan = some bp → ∃ qq, bp = oracle qq) →
      ∀ bp, ((mutateList oracle l reb context).2).best_plan = some bp →
        ∃ qq, bp = oracle qq)
    (fun oe reb context => (∀ bp, context.best_plan = some bp → ∃ qq, bp = oracle qq) →
      ∀ bp, ((mutateOpt oracle oe reb context).2).best_plan = some bp →
        ∃ qq, bp = oracle qq)
    ?_ ?_ ?_ ?_ ?_ ?_ ?_ ?_ ?_ ?_ ?_
  · intro reb context quals lo
    dsimp only
    intro ih1 ih2 h
    simp only [magicplan_mutator]
    exact ih2 (ih1 h)
  · intro reb context q lo
    dsimp only
    intro hnone ih1 ih2 h
    simp only [magicplan_mutator]
    rw [hnone]
    dsimp only
    exact fbq_best_from_oracle oracle _ _ (ih2 (ih1 h))
  · intro reb context q lo
    dsimp only
    intro lo' hsome ih1 ih2 h
    simp only [magicplan_mutator]
    rw [hsome]
    dsimp only
    exact ih2 (ih1 h)
  · intro reb context kind sub hother h
    rcases kind with _ | _ <;> rcases sub with t | v | ⟨op, args⟩ | ⟨k, s⟩ | ⟨quals, lo⟩ <;>
      first
        | exact absurd rfl (hother quals lo rfl)
        | simpa [magicplan_mutator] using h
  · intro reb context op args ih h
    simp only [magicplan_mutator]
    exact ih h
  · intro reb context t h
    simpa [magicplan_mutator] using h
  · intro reb context v h
    simpa [magicplan_mutator] using h
  · intro reb context h
    simpa [mutateList] using h
  · intro reb context e rest
    dsimp only
    intro ih1 ih2 h
    simp only [mutateList]
    exact ih2 (ih1 h)
  · intro reb context h
    simpa [mutateOpt] using h
  · intro reb context e ih h
    simp only [mutateOpt]
    exact ih h

theorem goodTrace_evalFollowsInjection {t : List Event} (hg : GoodTrace t) :
    evalFollowsInjection t := by
  induction hg with
  | nil =>
      intro i h
      simp at h
  | plan s hs ih =>
      intro i h
      have hi : i < s.length := by
        by_contra hge
        push_neg at hge
        rw [List.getElem?_append_right hge] at h
        rcases hk : i - s.length with _ | k <;> rw [hk] at h <;> simp at h
      rw [List.getElem?_append_left hi] at h
      have h2 := ih i h
      rcases Nat.lt_or_ge (i + 1) s.length with hlt | hge
      · rw [List.getElem?_append_left hlt]
        exact h2
      · exfalso
        rw [List.getElem?_eq_none hge] at h2
        exact Option.noConfusion h2
  | inject s hs ih =>
      intro i h
      rcases Nat.lt_or_ge i s.length with hi | hi
      · rw [List.getElem?_append_left hi] at h
        have h2 := ih i h
        rcases Nat.lt_or_ge (i + 1) s.length with hlt | hge
        · rw [List.getElem?_append_left hlt]
          exact h2
        · exfalso
          rw [List.getElem?_eq_none hge] at h2
          exact Option.noConfusion h2
      · rw [List.getElem?_append_right hi] at h
        rcases hk : i - s.length with _ | k
        · rw [List.getElem?_append_right (by omega)]
          have hk1 : i + 1 - s.length = 1 := by omega
          rw [hk1]
          rfl
        · rw [hk] at h
          rcases k with _ | k2
          · simp at h
          · simp at h

/-! Characterization of the driver `magicplan_planner` in terms of the tree
walk started from `startContext`. -/

theorem planner_disabled (oracle : Expr → PlannedStmt) (th : ℚ) (parse : Expr) :
    magicplan_planner oracle false th parse =
      { result := oracle parse, base_plan := oracle parse, best_plan := none,
        callerTree := parse, keptPristine := true, dividedRatio := false,
        trace := [Event.planned] } := by
  simp [magicplan_planner, real_plan, copyObject]

theorem planner_base_plan (oracle : Expr → PlannedStmt) (en : Bool) (th : ℚ)
    (parse : Expr) : (magicplan_planner oracle en th parse).base_plan = oracle parse := by
  cases en
  · rw [planner_disabled]
  · unfold magicplan_planner
    simp only [real_plan, copyObject, Bool.not_true, Bool.false_eq_true, if_false]
    split
    · rfl
    · split <;> rfl

theorem planner_best_plan_enabled (oracle : Expr → PlannedStmt) (th : ℚ) (parse : Expr) :
    (magicplan_planner oracle true th parse).best_plan =
      ((magicplan_mutator oracle parse id (startContext oracle parse)).2).best_plan := by
  unfold magicplan_planner startContext
  simp only [real_plan, copyObject, Bool.not_true, Bool.false_eq_true, if_false,
    List.nil_append]
  split
  · rename_i heq
    exact heq.symm
  · split
    · rename_i heq _
      exact heq.symm
    · rename_i heq _
      exact heq.symm

theorem planner_callerTree_enabled (oracle : Expr → PlannedStmt) (th : ℚ) (parse : Expr) :
    (magicplan_planner oracle true th parse).callerTree =
      (magicplan_mutator oracle parse id (startContext oracle parse)).1 := by
  unfold magicplan_planner startContext
  simp only [real_plan, copyObject, Bool.not_true, Bool.false_eq_true, if_false,
    List.nil_append]
  split
  · rfl
  · split <;> rfl

theorem planner_trace_enabled (oracle : Expr → PlannedStmt) (th : ℚ) (parse : Expr) :
    (magicplan_planner oracle true th parse).trace =
      ((magicplan_mutator oracle parse id (startContext oracle parse)).2).trace := by
  unfold magicplan_planner startContext
  simp only [real_plan, copyObject, Bool.not_true, Bool.false_eq_true, if_false,
    List.nil_append]
  split
  · rfl
  · split <;> rfl

theorem planner_result_best_none (oracle : Expr → PlannedStmt) (en : Bool) (th : ℚ)
    (parse : Expr) (h : (magicplan_planner oracle en th parse).best_plan = none) :
    (magicplan_planner oracle en th parse).result =
      (magicplan_planner oracle en th parse).base_plan ∧
    (magicplan_planner oracle en th parse).keptPristine = true ∧
    (magicplan_planner oracle en th parse).dividedRatio = false := by
  cases en
  · rw [planner_disabled]
    exact ⟨rfl, rfl, rfl⟩
  · revert h
    unfold magicplan_planner
    simp only [real_plan, copyObject, Bool.not_true, Bool.false_eq_true, if_false]
    split
    · exact fun _ => ⟨rfl, rfl, rfl⟩
    · split
      · intro h
        exact absurd h (by simp)
      · intro h
        exact absurd h (by simp)

theorem planner_result_best_some (oracle : Expr → PlannedStmt) (en : Bool) (th : ℚ)
    (parse : Expr) (bp : PlannedStmt)
    (h : (magicplan_planner oracle en th parse).best_plan = some bp) :
    ((magicplan_planner oracle en th parse).result =
      (if (oracle parse).planTree.total_cost / bp.planTree.total_cost ≤ th
        then oracle parse else bp)) ∧
    ((magicplan_planner oracle en th parse).keptPristine = true ↔
      (oracle parse).planTree.total_cost / bp.planTree.total_cost ≤ th) ∧
    (magicplan_planner oracle en th parse).dividedRatio = true := by
  cases en
  · rw [planner_disabled] at h
    exact absurd h (by simp)
  · revert h
    unfold magicplan_planner
    simp only [real_plan, copyObject, Bool.not_true, Bool.false_eq_true, if_false]
    split
    · intro h
      exact absurd h (by simp)
    · split
      · rename_i hcond
        intro h
        simp only [Option.some_inj] at h
        subst h
        simp [hcond]
      · rename_i hcond
        intro h
        simp only [Option.some_inj] at h
        subst h
        simp [hcond]

theorem planner_best_from_oracle (oracle : Expr → PlannedStmt) (en : Bool) (th : ℚ)
    (parse : Expr) :
    ∀ bp, (magicplan_planner oracle en th parse).best_plan = some bp →
      ∃ qq, bp = oracle qq := by
  cases en
  · rw [planner_disabled]
    intro bp h
    exact absurd h (by simp)
  · rw [planner_best_plan_enabled]
    exact mutator_best_from_oracle oracle parse id (startContext oracle parse)
      (by intro bp h; exact absurd h (by simp [startContext]))

/-! Settling the specification claims. -/

/-- Claim C1, counterexample: for the query whose top-level filter is a bare
offset-free existence check, running the enabled search leaves an injected
`OFFSET 0` marker in the caller's tree: the caller's `parse` object is not
structurally unchanged after the call (the walk runs with
`QTW_DONT_COPY_QUERY` and the injection stores through the shared tree). -/
theorem magicplan_C1_counterexample :
    (magicplan_planner oracleWorse true 1 qExists).callerTree ≠ qExists := by
  intro h
  have hm := congrArg markedQueries h
  rw [planner_callerTree_enabled] at hm
  norm_num [magicplan_mutator, mutateOpt, mutateList, find_best_query, real_plan,
    startContext, copyObject, zeroOffsetConst, oracleWorse, markedQueries,
    markedList, qExists] at hm

/-- Claim C1, amended: the base plan is always computed from the pristine
copy taken before any mutation, and the caller's tree is unchanged whenever
the search is disabled or the walk injects no marker; but when a marker is
injected it remains in the caller's tree (see the counterexample). -/
theorem magicplan_C1_amended (oracle : Expr → PlannedStmt) (en : Bool) (th : ℚ)
    (parse : Expr) :
    (magicplan_planner oracle en th parse).base_plan = oracle parse ∧
    (en = false → (magicplan_planner oracle en th parse).callerTree = parse) ∧
    ((magicplan_planner oracle en th parse).trace.count Event.injected = 0 →
      (magicplan_planner oracle en th parse).callerTree = parse) := by
  refine ⟨planner_base_plan oracle en th parse, ?_, ?_⟩
  · intro he
    subst he
    rw [planner_disabled]
  · intro h0
    cases en
    · rw [planner_disabled]
    · rw [planner_trace_enabled] at h0
      rw [planner_callerTree_enabled]
      refine mutator_id_of_no_injection oracle parse id (startContext oracle parse) ?_
      rw [h0]
      simp [startContext]

/-- Claim C1, witness for the amended claim at a concrete input. -/
theorem magicplan_C1_amended_witness :
    (magicplan_planner oracleFlat false 1 qExists).callerTree = qExists ∧
    (magicplan_planner oracleFlat false 1 qExists).base_plan = oracleFlat qExists :=
  ⟨(magicplan_C1_amended oracleFlat false 1 qExists).2.1 rfl,
   (magicplan_C1_amended oracleFlat false 1 qExists).1⟩

/-- Claim C2, counterexample: `qExists` has a top-level filter that is not
an AND conjunction (it is a bare `SubLink`), yet with the search enabled the
driver does not pass through: it calls the external planner twice (base plan
and one injected candidate), not exactly once.  The shape restriction of the
claim exists only in the earlier list-based planner
(`src/src/magicplan.c`), not in the mutator-based one. -/
theorem magicplan_C2_counterexample :
    (magicplan_planner oracleWorse true 1 qExists).trace.count Event.planned = 2 := by
  rw [planner_trace_enabled]
  norm_num [magicplan_mutator, mutateOpt, mutateList, find_best_query, real_plan,
    startContext, copyObject, zeroOffsetConst, oracleWorse, markedQueries,
    markedList, qExists, List.count_cons, List.count_nil]
  simp

/-- Claim C2, amended: when `magicplan.enabled` is false the search returns
exactly the external optimizer's plan for the original query, makes exactly
one optimizer call, and attempts no mutation.  (The pass-through for
non-AND top-level filters claimed from the earlier list-based version does
not hold for the mutator-based driver; see the counterexample.) -/
theorem magicplan_C2_amended (oracle : Expr → PlannedStmt) (th : ℚ) (parse : Expr) :
    (magicplan_planner oracle false th parse).result = oracle parse ∧
    (magicplan_planner oracle false th parse).trace.count Event.planned = 1 ∧
    (magicplan_planner oracle false th parse).callerTree = parse := by
  rw [planner_disabled]
  exact ⟨rfl, by simp, rfl⟩

/-- Claim C3: if no candidate was ever evaluated (no best plan recorded) the
driver returns the base plan; if a candidate was evaluated, the driver
returns the base plan when `base_cost / best_cost` is at most the threshold
and the best plan when the ratio exceeds the threshold. -/
theorem magicplan_C3 (oracle : Expr → PlannedStmt) (en : Bool) (th : ℚ) (parse : Expr) :
    ((magicplan_planner oracle en th parse).best_plan = none →
      (magicplan_planner oracle en th parse).result =
        (magicplan_planner oracle en th parse).base_plan) ∧
    (∀ bp, (magicplan_planner oracle en th parse).best_plan = some bp →
      ((magicplan_planner oracle en th parse).base_plan.planTree.total_cost /
          bp.planTree.total_cost ≤ th →
        (magicplan_planner oracle en th parse).result =
          (magicplan_planner oracle en th parse).base_plan) ∧
      (th < (magicplan_planner oracle en th parse).base_plan.planTree.total_cost /
          bp.planTree.total_cost →
        (magicplan_planner oracle en th parse).result = bp)) := by
  constructor
  · intro h
    exact (planner_result_best_none oracle en th parse h).1
  · intro bp h
    have hb := planner_base_plan oracle en th parse
    have hs := (planner_result_best_some oracle en th parse bp h).1
    constructor
    · intro hle
      rw [hb] at hle
      rw [hs, if_pos hle]
      exact hb.symm
    · intro hlt
      rw [hb] at hlt
      rw [hs, if_neg (not_le.mpr hlt)]

/-- Claim C3, witness at a concrete input (disabled run, no candidate). -/
theorem magicplan_C3_witness :
    (magicplan_planner oracleFlat false 1 qExists).result =
      (magicplan_planner oracleFlat false 1 qExists).base_plan :=
  (magicplan_C3 oracleFlat false 1 qExists).1 (by rw [planner_disabled])

/-- Claim C4, counterexample: with an oracle that gives the pristine tree
cost 0 and marked trees cost 5, the enabled search has a zero base cost and
a recorded best plan, and it does evaluate the ratio division — the code has
no special case skipping the division when the base cost is zero. -/
theorem magicplan_C4_counterexample :
    (magicplan_planner oracleZeroBase true 1 qExists).base_plan.planTree.total_cost = 0 ∧
    (magicplan_planner oracleZeroBase true 1 qExists).dividedRatio = true := by
  have hbp : (magicplan_planner oracleZeroBase true 1 qExists).best_plan =
      some ⟨⟨5⟩⟩ := by
    rw [planner_best_plan_enabled]
    norm_num [magicplan_mutator, mutateOpt, mutateList, find_best_query, real_plan,
      startContext, copyObject, zeroOffsetConst, oracleZeroBase, markedQueries,
      markedList, qExists]
  constructor
  · rw [planner_base_plan]
    norm_num [oracleZeroBase, markedQueries, markedList, qExists]
  · exact (planner_result_best_some oracleZeroBase true 1 qExists _ hbp).2.2

/-- Claim C4, amended: the driver performs the ratio division whenever a
candidate was evaluated, also when the base cost is zero (there is no
special case); the base plan is still returned in that situation because
`0 / best_cost = 0` is at most any admissible (non-negative) threshold.
The hypothesis that the recorded best cost is nonzero excludes the `0 / 0`
corner, where rational and IEEE-double division semantics part ways. -/
theorem magicplan_C4_amended (oracle : Expr → PlannedStmt) (en : Bool) (th : ℚ)
    (parse : Expr)
    (h0 : (magicplan_planner oracle en th parse).base_plan.planTree.total_cost = 0)
    (hth : 0 ≤ th)
    (hbz : ∀ bp, (magicplan_planner oracle en th parse).best_plan = some bp →
      bp.planTree.total_cost ≠ 0) :
    (magicplan_planner oracle en th parse).result =
      (magicplan_planner oracle en th parse).base_plan ∧
    ((magicplan_planner oracle en th parse).best_plan ≠ none →
      (magicplan_planner oracle en th parse).dividedRatio = true) := by
  cases hbp : (magicplan_planner oracle en th parse).best_plan with
  | none =>
      exact ⟨(planner_result_best_none oracle en th parse hbp).1,
        fun hne => absurd rfl hne⟩
  | some bp =>
      have hbz' := hbz bp hbp
      have hb := planner_base_plan oracle en th parse
      have hs := (planner_result_best_some oracle en th parse bp hbp).1
      have hz : (oracle parse).planTree.total_cost = 0 := by rw [← hb]; exact h0
      constructor
      · rw [hs, hz, if_pos (by rw [zero_div]; exact hth)]
        exact hb.symm
      · intro _
        exact (planner_result_best_some oracle en th parse bp hbp).2.2

/-- Claim C4, witness for the amended claim at a concrete input with zero
base cost and nonzero best cost. -/
theorem magicplan_C4_amended_witness :
    (magicplan_planner oracleZeroBase true 1 qExists).result =
      (magicplan_planner oracleZeroBase true 1 qExists).base_plan :=
  (magicplan_C4_amended oracleZeroBase true 1 qExists
    (by rw [planner_base_plan]
        norm_num [oracleZeroBase, markedQueries, markedList, qExists])
    (by norm_num)
    (by intro bp h
        rw [planner_best_plan_enabled] at h
        norm_num [magicplan_mutator, mutateOpt, mutateList, find_best_query, real_plan,
          startContext, copyObject, zeroOffsetConst, oracleZeroBase, markedQueries,
          markedList, qExists] at h
        rw [← h]
        norm_num)).1

/-- Claim C5, counterexample: with threshold 1/2 (the GUC admits any value
in [0, 10000]) and an oracle giving the pristine tree cost 12 and the
rewritten tree cost 20, the ratio 12/20 exceeds the threshold, so the
driver returns the rewritten plan, which is strictly costlier than the
base plan: the search is not non-regressive for every configuration. -/
theorem magicplan_C5_counterexample :
    ¬ ((magicplan_planner oracleWorse true (1/2) qExists).result.planTree.total_cost ≤
       (magicplan_planner oracleWorse true (1/2) qExists).base_plan.planTree.total_cost) := by
  have hbp : (magicplan_planner oracleWorse true (1/2) qExists).best_plan =
      some ⟨⟨20⟩⟩ := by
    rw [planner_best_plan_enabled]
    norm_num [magicplan_mutator, mutateOpt, mutateList, find_best_query, real_plan,
      startContext, copyObject, zeroOffsetConst, oracleWorse, markedQueries,
      markedList, qExists]
  have hb := planner_base_plan oracleWorse true (1/2) qExists
  have hor : oracleWorse qExists = ⟨⟨12⟩⟩ := by
    norm_num [oracleWorse, markedQueries, markedList, qExists]
  have hs := (planner_result_best_some oracleWorse true (1/2) qExists _ hbp).1
  rw [hs, hb, hor]
  norm_num

/-- Claim C5, amended: with any threshold of at least 1 (the default is 1)
and strictly positive oracle costs (as the specification assumes), the cost
of the returned plan never exceeds the base plan's cost. -/
theorem magicplan_C5_amended (oracle : Expr → PlannedStmt) (en : Bool) (th : ℚ)
    (parse : Expr) (hth : 1 ≤ th)
    (hpos : ∀ q, 0 < (oracle q).planTree.total_cost) :
    (magicplan_planner oracle en th parse).result.planTree.total_cost ≤
      (magicplan_planner oracle en th parse).base_plan.planTree.total_cost := by
  cases hbp : (magicplan_planner oracle en th parse).best_plan with
  | none =>
      rw [(planner_result_best_none oracle en th parse hbp).1]
  | some bp =>
      have hs := (planner_result_best_some oracle en th parse bp hbp).1
      have hb := planner_base_plan oracle en th parse
      obtain ⟨qq, hqq⟩ := planner_best_from_oracle oracle en th parse bp hbp
      have hbppos : 0 < bp.planTree.total_cost := by rw [hqq]; exact hpos qq
      rw [hs, hb]
      split
      · exact le_refl _
      · rename_i hcond
        have h1 : 1 < (oracle parse).planTree.total_cost / bp.planTree.total_cost :=
          lt_of_le_of_lt hth (not_le.mp hcond)
        exact le_of_lt ((one_lt_div hbppos).mp h1)

/-- Claim C5, witness for the amended claim at a concrete input. -/
theorem magicplan_C5_amended_witness :
    (magicplan_planner oracleFlat true 1 qExists).result.planTree.total_cost ≤
      (magicplan_planner oracleFlat true 1 qExists).base_plan.planTree.total_cost :=
  magicplan_C5_amended oracleFlat true 1 qExists (by norm_num)
    (fun q => by norm_num [oracleFlat])

/-- Claim C6: the evaluator returns true and replaces the recorded best
query and best plan exactly when no best plan is recorded yet or the
candidate's cost is less than or equal to the recorded best cost (so an
equal-cost candidate overwrites the previous best); otherwise it returns
false and leaves the search state unchanged. -/
theorem magicplan_C6 (oracle : Expr → PlannedStmt) (context : MutatorContext)
    (c : Expr) :
    ((find_best_query oracle context c).1 = true ↔
      (context.best_plan = none ∨ ∃ bp, context.best_plan = some bp ∧
        (oracle (copyObject c)).planTree.total_cost ≤ bp.planTree.total_cost)) ∧
    ((find_best_query oracle context c).1 = true →
      ((find_best_query oracle context c).2).best_plan = some (oracle (copyObject c)) ∧
      ((find_best_query oracle context c).2).best_query = c) ∧
    ((find_best_query oracle context c).1 = false →
      ((find_best_query oracle context c).2).best_plan = context.best_plan ∧
      ((find_best_query oracle context c).2).best_query = context.best_query ∧
      ((find_best_query oracle context c).2).base_plan = context.base_plan ∧
      ((find_best_query oracle context c).2).base_query = context.base_query ∧
      ((find_best_query oracle context c).2).current_query = context.current_query) := by
  unfold find_best_query real_plan copyObject
  dsimp only
  cases hb : context.best_plan with
  | none =>
      simp [hb]
  | some bp =>
      by_cases hc : (oracle c).planTree.total_cost ≤ bp.planTree.total_cost
      · simp [hb, hc]
      · simp [hb, hc]

/-- Claim C6, witness at a concrete state with no recorded best plan. -/
theorem magicplan_C6_witness :
    ((find_best_query oracleFlat (startContext oracleFlat qExists) qExists).2).best_plan =
      some (oracleFlat (copyObject qExists)) ∧
    ((find_best_query oracleFlat (startContext oracleFlat qExists) qExists).2).best_query =
      qExists :=
  (magicplan_C6 oracleFlat (startContext oracleFlat qExists) qExists).2.1 rfl

/-- Claim C7: on an existence-check sublink over a query, the mutator first
recursively rewrites the inner subquery (all of the inner subquery's events,
including any nested injection and its evaluation, happen before anything
the outer node does); then, exactly when the rewritten subquery has no
`limitOffset`, it injects the `OFFSET 0` marker and immediately calls the
evaluator on the whole current working tree (`reb` applied to the mutated
sublink — the value of the aliased root); when the rewritten subquery has a
`limitOffset` nothing is injected and nothing is evaluated.  Globally, in
the trace of any full search, every injection event is immediately followed
by a planner call. -/
theorem magicplan_C7 :
    (∀ (oracle : Expr → PlannedStmt) (q lo : Option Expr) (reb : Expr → Expr)
        (context : MutatorContext),
      let rq := mutateOpt oracle q
        (fun oe => reb (Expr.sublink SubLinkKind.existsSublink (Expr.query oe lo)))
        context
      let rl := mutateOpt oracle lo
        (fun oe => reb (Expr.sublink SubLinkKind.existsSublink (Expr.query rq.1 oe)))
        rq.2
      (rl.1 = none →
        magicplan_mutator oracle
            (Expr.sublink SubLinkKind.existsSublink (Expr.query q lo)) reb context =
          (Expr.sublink SubLinkKind.existsSublink
             (Expr.query rq.1 (some zeroOffsetConst)),
           (find_best_query oracle
             { rl.2 with trace := rl.2.trace ++ [Event.injected] }
             (reb (Expr.sublink SubLinkKind.existsSublink
               (Expr.query rq.1 (some zeroOffsetConst))))).2)) ∧
      (∀ lo', rl.1 = some lo' →
        magicplan_mutator oracle
            (Expr.sublink SubLinkKind.existsSublink (Expr.query q lo)) reb context =
          (Expr.sublink SubLinkKind.existsSublink (Expr.query rq.1 (some lo')),
           rl.2))) ∧
    (∀ (oracle : Expr → PlannedStmt) (en : Bool) (th : ℚ) (parse : Expr),
      evalFollowsInjection ((magicplan_planner oracle en th parse).trace)) := by
  constructor
  · intro oracle q lo reb context
    dsimp only
    constructor
    · intro hnone
      simp only [magicplan_mutator]
      rw [hnone]
    · intro lo2 hsome
      simp only [magicplan_mutator]
      rw [hsome]
  · intro oracle en th parse
    cases en
    · rw [planner_disabled]
      exact goodTrace_evalFollowsInjection
        (by simpa using GoodTrace.plan [] GoodTrace.nil)
    · rw [planner_trace_enabled]
      exact goodTrace_evalFollowsInjection
        (mutator_goodTrace oracle parse id (startContext oracle parse)
          (by simpa [startContext] using GoodTrace.plan [] GoodTrace.nil))

/-- Claim C7, witness: the injection-and-immediate-evaluation equation at a
concrete offset-free existence check. -/
theorem magicplan_C7_witness :
    magicplan_mutator oracleFlat
        (Expr.sublink SubLinkKind.existsSublink
          (Expr.query (some (Expr.leaf 1)) none)) id
        (startContext oracleFlat qExists) =
      (Expr.sublink SubLinkKind.existsSublink
         (Expr.query (some (Expr.leaf 1)) (some zeroOffsetConst)),
       (find_best_query oracleFlat
         { startContext oracleFlat qExists with
             trace := (startContext oracleFlat qExists).trace ++ [Event.injected] }
         (Expr.sublink SubLinkKind.existsSublink
           (Expr.query (some (Expr.leaf 1)) (some zeroOffsetConst)))).2) := by
  have h := (magicplan_C7.1 oracleFlat (some (Expr.leaf 1)) none id
    (startContext oracleFlat qExists)).1 rfl
  exact h.trans rfl

/-- Claim C8: the decision is monotone in the threshold — for a fixed oracle
and query (hence a fixed discovered best cost), raising the threshold can
only turn a rewritten outcome into a pristine one, never the reverse. -/
theorem magicplan_C8 (oracle : Expr → PlannedStmt) (en : Bool) (parse : Expr)
    (th1 th2 : ℚ) (hth : th1 ≤ th2)
    (hkept : (magicplan_planner oracle en th1 parse).keptPristine = true) :
    (magicplan_planner oracle en th2 parse).keptPristine = true := by
  cases en
  · rw [planner_disabled]
  · cases hbp : (magicplan_planner oracle true th2 parse).best_plan with
    | none => exact (planner_result_best_none oracle true th2 parse hbp).2.1
    | some bp =>
        have hbp1 : (magicplan_planner oracle true th1 parse).best_plan = some bp := by
          rw [planner_best_plan_enabled]
          rw [planner_best_plan_enabled] at hbp
          exact hbp
        have h1 := ((planner_result_best_some oracle true th1 parse bp hbp1).2.1).mp hkept
        exact ((planner_result_best_some oracle true th2 parse bp hbp).2.1).mpr
          (le_trans h1 hth)

/-- Claim C8, witness at concrete thresholds 1 and 2. -/
theorem magicplan_C8_witness :
    (magicplan_planner oracleFlat false 2 qExists).keptPristine = true :=
  magicplan_C8 oracleFlat false qExists 1 2 (by norm_num)
    (by rw [planner_disabled])

/-- Claim C9: the first evaluated candidate is always accepted and recorded
(the evaluator never compares against the base plan, so this happens even
when the candidate costs more than the base plan), and from then on the
recorded best cost never increases, neither across one evaluator call nor
across any sequence of successive evaluator calls. -/
theorem magicplan_C9 (oracle : Expr → PlannedStmt) :
    (∀ (context : MutatorContext) (c : Expr), context.best_plan = none →
      (find_best_query oracle context c).1 = true ∧
      ((find_best_query oracle context c).2).best_plan = some (oracle (copyObject c))) ∧
    (∀ (context : MutatorContext) (c : Expr) (bp bp' : PlannedStmt),
      context.best_plan = some bp →
      ((find_best_query oracle context c).2).best_plan = some bp' →
      bp'.planTree.total_cost ≤ bp.planTree.total_cost) ∧
    (∀ (candidates : List Expr) (context : MutatorContext) (bp bp' : PlannedStmt),
      context.best_plan = some bp →
      (evalCandidates oracle context candidates).best_plan = some bp' →
      bp'.planTree.total_cost ≤ bp.planTree.total_cost) := by
  have hstep : ∀ (context : MutatorContext) (c : Expr) (bp bp' : PlannedStmt),
      context.best_plan = some bp →
      ((find_best_query oracle context c).2).best_plan = some bp' →
      bp'.planTree.total_cost ≤ bp.planTree.total_cost := by
    intro context c bp bp' hb hb'
    revert hb'
    unfold find_best_query real_plan copyObject
    dsimp only
    rw [hb]
    dsimp only
    split
    · rename_i hc
      intro hb'
      rw [Option.some_inj.mp hb'.symm]
      exact hc
    · rename_i hc
      intro hb'
      have h2 : bp = bp' := Option.some_inj.mp hb'
      exact le_of_eq (congrArg (fun p => p.planTree.total_cost) h2).symm
  refine ⟨?_, hstep, ?_⟩
  · intro context c hb
    unfold find_best_query real_plan copyObject
    dsimp only
    rw [hb]
    exact ⟨rfl, rfl⟩
  · intro candidates
    induction candidates with
    | nil =>
        intro context bp bp' hb hb'
        have hb2 : context.best_plan = some bp' := hb'
        have h2 : bp = bp' := Option.some_inj.mp (hb.symm.trans hb2)
        exact le_of_eq (congrArg (fun p => p.planTree.total_cost) h2).symm
    | cons c rest ih =>
        intro context bp bp' hb hb'
        rcases fbq_best_plan_cases oracle context c with hc | hc
        · exact ih (find_best_query oracle context c).2 bp bp'
            (hc.trans hb) hb'
        · have hmid : ((find_best_query oracle context c).2).best_plan =
              some (oracle c) := hc
          have h1 : (oracle c).planTree.total_cost ≤ bp.planTree.total_cost :=
            hstep context c bp (oracle c) hb hmid
          have h2 := ih (find_best_query oracle context c).2 (oracle c) bp' hmid hb'
          exact le_trans h2 h1

/-- Claim C9, witness: a concrete first evaluation is accepted. -/
theorem magicplan_C9_witness :
    (find_best_query oracleFlat (startContext oracleFlat qExists) qExists).1 = true ∧
    ((find_best_query oracleFlat (startContext oracleFlat qExists) qExists).2).best_plan =
      some (oracleFlat (copyObject qExists)) :=
  (magicplan_C9 oracleFlat).1 (startContext oracleFlat qExists) qExists rfl

/-- Claim C10: one evaluator call plans exactly one deep copy of the
candidate value taken at call time (one planner invocation appended to the
trace, and any newly recorded best plan is the oracle's answer on that
snapshot value — later changes to the shared working tree cannot reach it),
restores `current_query` before returning, and changes no context field
other than `best_plan` and `best_query`. -/
theorem magicplan_C10 (oracle : Expr → PlannedStmt) (context : MutatorContext)
    (c : Expr) :
    ((find_best_query oracle context c).2).current_query = context.current_query ∧
    ((find_best_query oracle context c).2).base_plan = context.base_plan ∧
    ((find_best_query oracle context c).2).base_query = context.base_query ∧
    ((find_best_query oracle context c).2).trace = context.trace ++ [Event.planned] ∧
    (((find_best_query oracle context c).2).best_plan = context.best_plan ∨
      ((find_best_query oracle context c).2).best_plan = some (oracle (copyObject c))) :=
  ⟨fbq_current_query oracle context c, fbq_base_plan oracle context c,
   fbq_base_query oracle context c, fbq_trace oracle context c,
   fbq_best_plan_cases oracle context c⟩

end Magicplan
